import Mathlib

/-!
Shallow embedding of the figure/table extraction pipeline
(`1.extract_pdf2img_excessive.py`): geometric candidate merging, caption
location and scoring, content classification, perceptual deduplication,
context windowing, and the document orchestration loop.

Conventions of the embedding:
* Python floats are modelled as exact rationals (`ℚ`); decimal literals such
  as `0.3`, `1e-6`, `0.002` become the corresponding rationals.
* `_bbox_dist` computes `sqrt (dx^2 + dy^2)`; every use in the source only
  compares the distance against a nonnegative constant `t`, which is
  equivalent to comparing `dx^2 + dy^2` against `t^2` (both sides
  nonnegative), so the embedding works with the squared distance.
* External effects (PDF decoding, rasterisation, perceptual hashing of the
  rendered pixels) are supplied as input data / oracle functions; all
  decision logic around them is embedded from the source.
-/

/-- A bounding box `(x0, top, x1, bottom)` in page coordinates,
as used throughout the source (`y` grows downward). -/
structure Rect where
  x0 : ℚ
  y0 : ℚ
  x1 : ℚ
  y1 : ℚ
  deriving DecidableEq, Repr

/-- Source `_bbox_expand`: grow a box by `margin` on every side. -/
def bboxExpand (b : Rect) (margin : ℚ) : Rect :=
  ⟨b.x0 - margin, b.y0 - margin, b.x1 + margin, b.y1 + margin⟩

/-- Source `_bbox_union`: componentwise bounding box of two boxes. -/
def bboxUnion (a b : Rect) : Rect :=
  ⟨min a.x0 b.x0, min a.y0 b.y0, max a.x1 b.x1, max a.y1 b.y1⟩

/-- Source `_bbox_area`: area with negative extents clamped to zero. -/
def bboxArea (b : Rect) : ℚ :=
  max 0 (b.x1 - b.x0) * max 0 (b.y1 - b.y0)

/-- The squared edge-to-edge gap distance of `_bbox_dist` (zero when the
boxes overlap).  The source returns `sqrt (dx^2 + dy^2)`; all callers only
compare it with a nonnegative constant, so the square is kept. -/
def bboxDistSq (a b : Rect) : ℚ :=
  let dx := max 0 (max (b.x0 - a.x1) (a.x0 - b.x1))
  let dy := max 0 (max (b.y0 - a.y1) (a.y0 - b.y1))
  dx ^ 2 + dy ^ 2

/-- Intersection area of two boxes (lines 333-335 of the source). -/
def interArea (a b : Rect) : ℚ :=
  max 0 (min a.x1 b.x1 - max a.x0 b.x0) * max 0 (min a.y1 b.y1 - max a.y0 b.y0)

/-- Intersection-over-union as computed at lines 336-337:
`inter / (area b + area cb - inter + 1e-6)`. -/
def iou (b cb : Rect) : ℚ :=
  interArea b cb / (bboxArea b + bboxArea cb - interArea b cb + 1 / 1000000)

/-- One step of the candidate merger (lines 330-343): the incoming box `b`
is folded into the growing candidate list; the first existing candidate with
`iou > 0.3` or edge gap `< 10` absorbs it (replaced by the union), otherwise
`b` is appended at the end. -/
def mergeBoxStep : List Rect → Rect → List Rect
  | [], b => [b]
  | cb :: rest, b =>
    if iou b cb > 3 / 10 ∨ bboxDistSq b cb < 10 ^ 2 then
      bboxUnion cb b :: rest
    else
      cb :: mergeBoxStep rest b

/-- The Candidate Merger: fold all raster/graphic boxes of a page, in
encounter order, through `mergeBoxStep` (lines 329-343). -/
def buildCandidates (bs : List Rect) : List Rect :=
  bs.foldl mergeBoxStep []

/-- Source `a` lies inside `c` (used to express that an input box "ends up in" an
output candidate: every candidate's box contains each box it absorbed). -/
def rectInside (a c : Rect) : Prop :=
  c.x0 ≤ a.x0 ∧ c.y0 ≤ a.y0 ∧ a.x1 ≤ c.x1 ∧ a.y1 ≤ c.y1

instance (a c : Rect) : Decidable (rectInside a c) := by
  unfold rectInside; infer_instance

theorem interArea_comm (a b : Rect) : interArea a b = interArea b a := by
  unfold interArea
  rw [min_comm a.x1, max_comm a.x0, min_comm a.y1, max_comm a.y0]

theorem iou_comm (a b : Rect) : iou a b = iou b a := by
  unfold iou
  rw [interArea_comm, add_comm (bboxArea a)]

/-- C3 counterexample: with a third box `D` on the page, the greedy
first-match merge sends `B` into `D`'s candidate even though `iou A B > 0.3`,
leaving `A` and `B` in two distinct candidates. -/
def cexD : Rect := ⟨0, 10, 85, 90⟩

/-- C3 counterexample box `A`. -/
def cexA : Rect := ⟨100, 0, 200, 100⟩

/-- C3 counterexample box `B` (overlaps `A` with IoU ≈ 0.74). -/
def cexB : Rect := ⟨90, 10, 200, 90⟩

/-- C3 — counterexample.  Boxes `A` and `B` have IoU > 0.3, yet on the input
`[D, A, B]` the merger's output has no single candidate containing both:
`B` is absorbed by `D`'s candidate (edge gap 5 < 10, checked first) and `A`
stays its own candidate.  The pair is distributed across two distinct
candidates, so the claim's "regardless of what other boxes the page
contains" fails. -/
theorem C3_counterexample :
    iou cexA cexB > 3 / 10 ∧
    buildCandidates [cexD, cexA, cexB] =
      [⟨0, 10, 200, 90⟩, ⟨100, 0, 200, 100⟩] ∧
    rectInside cexA ⟨100, 0, 200, 100⟩ ∧
    rectInside cexB ⟨0, 10, 200, 90⟩ ∧
    (⟨0, 10, 200, 90⟩ : Rect) ≠ ⟨100, 0, 200, 100⟩ ∧
    ¬ ∃ c ∈ buildCandidates [cexD, cexA, cexB],
        rectInside cexA c ∧ rectInside cexB c := by
  norm_num [cexD, cexA, cexB, buildCandidates, mergeBoxStep, iou, interArea,
    bboxArea, bboxDistSq, bboxUnion, rectInside, max_def, min_def]

/-- C3 — amended: two boxes with IoU > 0.3 are unioned into a single
candidate when they are the only inputs (no interfering box); in general the
greedy first-match merge can place them in distinct candidates. -/
theorem C3_pair_alone_merges (a b : Rect) (h : iou a b > 3 / 10) :
    buildCandidates [a, b] = [bboxUnion a b] := by
  simp only [buildCandidates, List.foldl_cons, List.foldl_nil, mergeBoxStep]
  rw [if_pos (Or.inl (by rw [iou_comm]; exact h))]

/-- C3 — witness for the amended theorem at a concrete overlapping pair. -/
theorem C3_pair_alone_merges_witness :
    iou ⟨0, 0, 10, 10⟩ ⟨0, 0, 10, 8⟩ > 3 / 10 ∧
    buildCandidates [⟨0, 0, 10, 10⟩, ⟨0, 0, 10, 8⟩] =
      [bboxUnion ⟨0, 0, 10, 10⟩ ⟨0, 0, 10, 8⟩] :=
  ⟨by norm_num [iou, interArea, bboxArea, max_def, min_def],
   C3_pair_alone_merges _ _
     (by norm_num [iou, interArea, bboxArea, max_def, min_def])⟩

/-! ### Context Locator: sentence windows and range merging (`find_contexts`) -/

/-- The window computed for a reference match at sentence index `i` in a
document of `total` sentences (lines 433-436):
`start = max(0, i-2)`, `end = min(total, i+3)`, and when `end - start < 5`
the end is pushed out by the deficit, clamped at `total`. -/
def windowFor (total i : ℤ) : ℤ × ℤ :=
  let start := max 0 (i - 2)
  let e := min total (i + 3)
  if e - start < 5 then (start, min total (e + (5 - (e - start)))) else (start, e)

/-- Python's lexicographic tuple comparison, as used by `sorted(ranges)`. -/
def rangeLe (a b : ℤ × ℤ) : Bool :=
  decide (a.1 < b.1 ∨ (a.1 = b.1 ∧ a.2 ≤ b.2))

/-- Stable insertion used to model Python's stable `sorted`: a new element
goes in front of the first existing element that is `≥` it, hence after all
equal elements that were already present. -/
def insertLe (le : α → α → Bool) (a : α) : List α → List α
  | [] => [a]
  | b :: l => if le a b then a :: b :: l else b :: insertLe le a l

/-- Stable sort by a boolean total preorder (model of Python `sorted`). -/
def sortLe (le : α → α → Bool) (l : List α) : List α :=
  l.foldr (insertLe le) []

theorem mem_insertLe (le : α → α → Bool) (a x : α) :
    ∀ l, x ∈ insertLe le a l ↔ x = a ∨ x ∈ l := by
  intro l
  induction l with
  | nil => simp [insertLe]
  | cons b l ih =>
    by_cases h : le a b = true
    · simp [insertLe, h]
    · simp [insertLe, h, ih]
      tauto

theorem pairwise_insertLe (le : α → α → Bool)
    (htr : ∀ a b c, le a b = true → le b c = true → le a c = true)
    (hto : ∀ a b, le a b = true ∨ le b a = true) (a : α) :
    ∀ l, l.Pairwise (fun x y => le x y = true) →
      (insertLe le a l).Pairwise (fun x y => le x y = true) := by
  intro l
  induction l with
  | nil => simp [insertLe]
  | cons b l ih =>
    intro hp
    rw [List.pairwise_cons] at hp
    by_cases h : le a b = true
    · rw [insertLe, if_pos h, List.pairwise_cons]
      refine ⟨?_, List.pairwise_cons.2 hp⟩
      intro x hx
      rcases List.mem_cons.1 hx with rfl | hx
      · exact h
      · exact htr _ _ _ h (hp.1 x hx)
    · rw [insertLe, if_neg h, List.pairwise_cons]
      refine ⟨?_, ih hp.2⟩
      intro x hx
      rcases (mem_insertLe le a x l).1 hx with rfl | hx
      · rcases hto b x with hh | hh
        · exact hh
        · exact absurd hh h
      · exact hp.1 x hx

theorem pairwise_sortLe (le : α → α → Bool)
    (htr : ∀ a b c, le a b = true → le b c = true → le a c = true)
    (hto : ∀ a b, le a b = true ∨ le b a = true) (l : List α) :
    (sortLe le l).Pairwise (fun x y => le x y = true) := by
  induction l with
  | nil => simp [sortLe]
  | cons b l ih => exact pairwise_insertLe le htr hto b _ ih

/-- The merging loop of lines 438-448: `cur` is the last entry of the
growing `merged` list; a new sorted range extends it when its start is
`≤ cur`'s end, otherwise `cur` is emitted and the new range takes over. -/
def mergeRangesLoop (cur : ℤ × ℤ) : List (ℤ × ℤ) → List (ℤ × ℤ)
  | [] => [cur]
  | r :: rest =>
    if r.1 ≤ cur.2 then mergeRangesLoop (cur.1, max cur.2 r.2) rest
    else cur :: mergeRangesLoop r rest

/-- Merge overlapping-or-adjacent ranges after sorting (lines 438-448). -/
def mergeRanges (rs : List (ℤ × ℤ)) : List (ℤ × ℤ) :=
  match sortLe rangeLe rs with
  | [] => []
  | r :: rest => mergeRangesLoop r rest

theorem mergeRangesLoop_head :
    ∀ (l : List (ℤ × ℤ)) (c : ℤ × ℤ),
      ∃ e tl, mergeRangesLoop c l = (c.1, e) :: tl := by
  intro l
  induction l with
  | nil => exact fun c => ⟨c.2, [], rfl⟩
  | cons r rest ih =>
    intro c
    by_cases h : r.1 ≤ c.2
    · obtain ⟨e, tl, he⟩ := ih (c.1, max c.2 r.2)
      exact ⟨e, tl, by rw [mergeRangesLoop, if_pos h]; exact he⟩
    · obtain ⟨e, tl, he⟩ := ih r
      exact ⟨c.2, mergeRangesLoop r rest, by rw [mergeRangesLoop, if_neg h]⟩

theorem chain'_mergeRangesLoop :
    ∀ (l : List (ℤ × ℤ)) (cur : ℤ × ℤ),
      l.Pairwise (fun a b => rangeLe a b = true) →
      (∀ x ∈ l, cur.1 ≤ x.1) →
      List.Chain' (fun a b => a.1 ≤ b.1 ∧ a.2 < b.1) (mergeRangesLoop cur l) := by
  intro l
  induction l with
  | nil => intro cur _ _; simp [mergeRangesLoop]
  | cons r rest ih =>
    intro cur hp hc
    rw [List.pairwise_cons] at hp
    by_cases h : r.1 ≤ cur.2
    · rw [mergeRangesLoop, if_pos h]
      refine ih (cur.1, max cur.2 r.2) hp.2 ?_
      intro x hx
      have := hp.1 x hx
      simp only [rangeLe, decide_eq_true_eq] at this
      have hrc : cur.1 ≤ r.1 := hc r (by simp)
      omega
    · rw [mergeRangesLoop, if_neg h]
      obtain ⟨e, tl, he⟩ := mergeRangesLoop_head rest r
      rw [he, List.chain'_cons]
      have hrc : cur.1 ≤ r.1 := hc r (by simp)
      refine ⟨⟨hrc, by omega⟩, ?_⟩
      rw [← he]
      refine ih r hp.2 ?_
      intro x hx
      have := hp.1 x hx
      simp only [rangeLe, decide_eq_true_eq] at this
      omega

theorem rangeLe_trans (a b c : ℤ × ℤ) :
    rangeLe a b = true → rangeLe b c = true → rangeLe a c = true := by
  simp only [rangeLe, decide_eq_true_eq]; omega

theorem rangeLe_total (a b : ℤ × ℤ) :
    rangeLe a b = true ∨ rangeLe b a = true := by
  simp only [rangeLe, decide_eq_true_eq]; omega

theorem chain'_mergeRanges (rs : List (ℤ × ℤ)) :
    List.Chain' (fun a b => a.1 ≤ b.1 ∧ a.2 < b.1) (mergeRanges rs) := by
  unfold mergeRanges
  have hp := pairwise_sortLe rangeLe rangeLe_trans rangeLe_total rs
  cases hs : sortLe rangeLe rs with
  | nil => simp
  | cons r rest =>
    rw [hs, List.pairwise_cons] at hp
    refine chain'_mergeRangesLoop rest r hp.2 ?_
    intro x hx
    have := hp.1 x hx
    simp only [rangeLe, decide_eq_true_eq] at this
    omega

/-- C6 — counterexample.  A reference match at sentence index 19 of a
20-sentence document is right at the document's trailing edge, yet its
window is `[17, 20)` — only 3 sentences, not the "at least 5" the claim
promises for matches near a document edge: the widening only pushes the end
forward and is clamped at `total`. -/
theorem C6_counterexample :
    windowFor 20 19 = (17, 20) ∧ (20 : ℤ) - 17 < 5 := by
  constructor
  · decide
  · decide

/-- C6 — amended.  Each match at index `i` yields the window
`[max 0 (i-2), min total (max (i+3) 5))`: the base window `[i-2, i+3)` is
widened to at least 5 sentences only by pushing the end, so only matches
near the *start* edge are widened (a match near the end keeps a shorter
window, the extension being clamped at `total`); the windows are then merged
into ranges sorted by start index and pairwise disjoint (each end strictly
before the next start). -/
theorem C6_window_closed_form_and_disjoint_merge (total i : ℤ)
    (h0 : 0 ≤ i) (h1 : i < total) (rs : List (ℤ × ℤ)) :
    windowFor total i = (max 0 (i - 2), min total (max (i + 3) 5)) ∧
    List.Chain' (fun a b => a.1 ≤ b.1 ∧ a.2 < b.1) (mergeRanges rs) := by
  refine ⟨?_, chain'_mergeRanges rs⟩
  simp only [windowFor]
  split_ifs with h <;> rw [Prod.ext_iff] <;> constructor <;> simp <;> omega

/-- C6 — witness: a match at index 5 of a 20-sentence document, with two
windows to merge. -/
theorem C6_window_witness :
    windowFor 20 5 = (max 0 (5 - 2), min 20 (max (5 + 3) 5)) ∧
    List.Chain' (fun a b => a.1 ≤ b.1 ∧ a.2 < b.1)
      (mergeRanges [(3, 8), (17, 22)]) :=
  C6_window_closed_form_and_disjoint_merge 20 5 (by decide) (by decide)
    [(3, 8), (17, 22)]

/-! ### Data supplied by the document decoder -/

/-- One text token of a page, as produced by `page.extract_words`
(fields used by the source: `x0`, `x1`, `top`, `bottom`, `text`). -/
structure Word where
  x0 : ℚ
  x1 : ℚ
  top : ℚ
  bottom : ℚ
  text : String
  deriving DecidableEq, Repr

/-- Primitive-type counts of a graphic cluster
(the `{"lines": …, "rects": …, "curves": …}` dictionaries). -/
structure PrimStat where
  lines : Nat
  rects : Nat
  curves : Nat
  deriving DecidableEq, Repr

/-- Source `_words_in_rect`: tokens fully contained in a rectangle. -/
def wordsInRect (ws : List Word) (r : Rect) : List Word :=
  ws.filter fun w =>
    decide (w.x0 ≥ r.x0 ∧ w.x1 ≤ r.x1 ∧ w.top ≥ r.y0 ∧ w.bottom ≤ r.y1)

/-! ### Content Classifier (`_text_and_edge_score`, `_looks_like_plain_text`) -/

/-- The text-coverage part of `_text_and_edge_score` (lines 288-296):
sum of the areas of tokens fully inside the box, divided by the box area
(clamped below by 1), capped at 1.0.  The edge-density part operates on the
rendered pixels and is supplied as external data. -/
def textCoverage (words : List Word) (b : Rect) : ℚ :=
  let area := max 1 ((b.x1 - b.x0) * (b.y1 - b.y0))
  let textArea :=
    ((wordsInRect words b).map fun w =>
      max 0 (w.x1 - w.x0) * max 0 (w.bottom - w.top)).sum
  min 1 (textArea / area)

/-- Source `_looks_like_plain_text` (lines 303-309): vector-evidence override
first (≥ 6 lines+curves or ≥ 3 rects keeps the candidate), otherwise reject
exactly when text ratio > 0.55 and mean edge density < 0.10. -/
def looksLikePlainText (textRa meanEdge : ℚ) (statsHint : Option PrimStat) : Bool :=
  match statsHint with
  | some st =>
    if st.lines + st.curves ≥ 6 then false
    else if st.rects ≥ 3 then false
    else decide (textRa > 11 / 20 ∧ meanEdge < 1 / 10)
  | none => decide (textRa > 11 / 20 ∧ meanEdge < 1 / 10)

/-- C7.  The classifier rejects a candidate as plain text exactly when its
(1.0-capped) text-coverage ratio exceeds 0.55 and its mean edge density is
below 0.10, unless the matching graphic-cluster statistics show at least 6
combined line/curve primitives or at least 3 rectangle primitives, which
overrides the rejection.  The coverage ratio is indeed capped at 1. -/
theorem C7_plain_text_rejection (words : List Word) (b : Rect) (meanEdge : ℚ)
    (hint : Option PrimStat) :
    textCoverage words b ≤ 1 ∧
    (looksLikePlainText (textCoverage words b) meanEdge hint = true ↔
      (textCoverage words b > 11 / 20 ∧ meanEdge < 1 / 10) ∧
      ¬ ∃ st, hint = some st ∧ (st.lines + st.curves ≥ 6 ∨ st.rects ≥ 3)) := by
  constructor
  · exact min_le_left 1 _
  · cases hint with
    | none => simp [looksLikePlainText]
    | some st =>
      simp only [looksLikePlainText]
      split_ifs with h1 h2
      · simp only [false_iff]
        rintro ⟨_, hno⟩
        exact hno ⟨st, rfl, Or.inl h1⟩
      · simp only [false_iff]
        rintro ⟨_, hno⟩
        exact hno ⟨st, rfl, Or.inr h2⟩
      · simp only [decide_eq_true_eq]
        constructor
        · rintro ⟨ha, hb⟩
          refine ⟨⟨ha, hb⟩, ?_⟩
          rintro ⟨st', hst, hcla⟩
          rw [Option.some_inj] at hst
          subst hst
          omega
        · rintro ⟨⟨ha, hb⟩, _⟩
          exact ⟨ha, hb⟩

/-! ### Character/string utilities mirroring the Python regex operations -/

/-- ASCII whitespace, modelling the regex class `\s` and `str.strip`. -/
def isWsChar (c : Char) : Bool :=
  c == ' ' || c == '\t' || c == '\n' || c == '\r' || c == '\x0B' || c == '\x0C'

/-- Case-insensitive ASCII prefix match (the source compiles its label
regexes with `re.I`): when pattern `p` is a prefix of `cs` up to case,
return the input that remains after it. -/
def ciPrefixRest : List Char → List Char → Option (List Char)
  | [], cs => some cs
  | _ :: _, [] => none
  | p :: ps, c :: cs =>
    if p.toLower == c.toLower then ciPrefixRest ps cs else none

/-- The alternatives of the prefix group of `LABEL_REGEX`
(`Fig(?:\.|ure)?|Figs?|Table|Tab\.?|图表|图|表`), expanded in the order the
regex engine tries them (greedy optional parts first; the duplicate plain
`Fig` produced by `Figs?` is dropped as it can never match first). -/
def labelAlternatives : List (List Char) :=
  ["Fig.".toList, "Figure".toList, "Fig".toList, "Figs".toList,
   "Table".toList, "Tab.".toList, "Tab".toList,
   "图表".toList, "图".toList, "表".toList]

/-- The `(?:[.\-][0-9A-Za-z]+)*` tail of the label number, parsed greedily.
The fuel argument (always instantiated with the input length, an upper bound
on the number of groups) keeps the recursion structural. -/
def numberTail : Nat → List Char → List Char
  | 0, _ => []
  | _, [] => []
  | fuel + 1, c :: rest =>
    if c == '.' || c == '-' then
      match rest.span (fun d => d.isAlphanum) with
      | ([], _) => []
      | (d, r) => c :: (d ++ numberTail fuel r)
    else []

/-- Source `LABEL_REGEX.match(s)` with the number capture (group 1):
`^\s*(?:Fig(?:\.|ure)?|Figs?|Table|Tab\.?|图表|图|表)\s*([0-9]+(?:[.\-][0-9A-Za-z]+)*)`.
Alternatives are tried in regex order; the first whose suffix (`\s*` then a
digit) also matches wins, which models the engine's backtracking. -/
def labelNumber (s : String) : Option String :=
  let cs := s.toList.dropWhile isWsChar
  labelAlternatives.findSome? fun p =>
    match ciPrefixRest p cs with
    | none => none
    | some rest =>
      let afterWs := rest.dropWhile isWsChar
      match afterWs.span (fun c => c.isDigit) with
      | ([], _) => none
      | (ds, r) => some (String.mk (ds ++ numberTail r.length r))

/-- Boolean use of `LABEL_REGEX.match` (the `has_label` test of
`_pick_best_caption`, line 175). -/
def hasLabel (s : String) : Bool :=
  (labelNumber s).isSome

/-- The prefix-only regex of lines 67/84
(`^\s*(Fig(?:\.|ure)?|Figs?|Table|Tab\.?|图表|图|表)`), returning the matched
text in its original case. -/
def labelPrefixText (s : String) : Option String :=
  let cs := s.toList.dropWhile isWsChar
  labelAlternatives.findSome? fun p =>
    match ciPrefixRest p cs with
    | none => none
    | some _ => some (String.mk (cs.take p.length))

/-! ### Caption scoring (`_pick_best_caption`, lines 170-179) -/

/-- The scoring function of `_pick_best_caption`:
`(has_label * 10) - (dist * 0.01) - max(0, len(text) - 260) * 0.002`. -/
def captionScore (item : String × ℚ) : ℚ :=
  let hasL : ℚ := if hasLabel item.1 then 1 else 0
  let lengthPenalty : ℚ :=
    ((max 0 ((item.1.length : ℤ) - 260) : ℤ) : ℚ) * (2 / 1000)
  hasL * 10 - item.2 * (1 / 100) - lengthPenalty

/-- Python's `max(candidates, key=score)` keeps the current best on ties,
so the earliest maximal element wins. -/
def pickBestAux (best : String × ℚ) : List (String × ℚ) → String × ℚ
  | [] => best
  | c :: cs => pickBestAux (if captionScore c > captionScore best then c else best) cs

/-- Source `_pick_best_caption`: empty list yields `""`, otherwise the text of the
earliest candidate attaining the maximal score. -/
def pickBestCaption : List (String × ℚ) → String
  | [] => ""
  | c :: cs => (pickBestAux c cs).1

/-- Filler text for the C8 counterexample. -/
def filler : String := String.mk (List.replicate 5252 'a')

/-- C8 counterexample input: a labeled caption so long (5261 characters)
that its length penalty (10.002) exceeds the 10-point label bonus. -/
def longLabeled : String := "Figure 1 " ++ filler

/-- C8 — counterexample.  At equal distance 5, the unlabeled string
"no label here" is chosen over `longLabeled` even though the latter begins
with a recognized label: the length penalty `(5261-260)*0.002 = 10.002`
outweighs the `+10` label bonus. -/
theorem C8_counterexample :
    hasLabel longLabeled = true ∧
    hasLabel "no label here" = false ∧
    pickBestCaption [("no label here", 5), (longLabeled, 5)] = "no label here" := by
  have h1 : hasLabel longLabeled = true := rfl
  have h2 : hasLabel "no label here" = false := by decide
  have hlenN : longLabeled.length = 5261 := by
    rw [longLabeled, String.length_append, filler]
    simp only [String.length, List.length_replicate]
    rfl
  have hlen : ((longLabeled.length : ℤ)) = 5261 := by rw [hlenN]; rfl
  have hlen2 : (("no label here".length : ℤ)) = 13 := by decide
  refine ⟨h1, h2, ?_⟩
  simp only [pickBestCaption, pickBestAux, captionScore, h1, h2, hlen, hlen2]
  norm_num

/-- C8 — amended.  At equal distance, the candidate beginning with a
recognized label prefix is chosen over the one without, in either encounter
order, provided the labeled string is shorter than 5260 characters (so that
its length penalty stays strictly below the 10-point label bonus); a labeled
string of 5260 or more characters can tie with or lose to the unlabeled
one. -/
theorem C8_label_beats_unlabeled (t1 t2 : String) (d : ℚ)
    (h1 : hasLabel t1 = true) (h2 : hasLabel t2 = false)
    (hlen : t1.length < 5260) :
    pickBestCaption [(t1, d), (t2, d)] = t1 ∧
    pickBestCaption [(t2, d), (t1, d)] = t1 := by
  have hm1 : (max 0 ((t1.length : ℤ) - 260)) ≤ 4999 := by omega
  have hm1q : ((max 0 ((t1.length : ℤ) - 260) : ℤ) : ℚ) ≤ 4999 := by
    exact_mod_cast hm1
  have hm2q : (0 : ℚ) ≤ ((max 0 ((t2.length : ℤ) - 260) : ℤ) : ℚ) := by
    exact_mod_cast le_max_left 0 ((t2.length : ℤ) - 260)
  have hscore : captionScore (t2, d) < captionScore (t1, d) := by
    simp only [captionScore]
    rw [if_pos h1, if_neg (by rw [h2]; exact Bool.false_ne_true)]
    linarith [hm1q, hm2q]
  constructor
  · simp only [pickBestCaption, pickBestAux]
    rw [if_neg (not_lt.mpr hscore.le)]
  · simp only [pickBestCaption, pickBestAux]
    rw [if_pos hscore]

/-- C8 — witness for the amended theorem: a short labeled caption beats an
unlabeled one at equal distance 7, in both orders. -/
theorem C8_label_beats_unlabeled_witness :
    pickBestCaption [("Figure 2: overview", 7), ("no label text", 7)] =
      "Figure 2: overview" ∧
    pickBestCaption [("no label text", 7), ("Figure 2: overview", 7)] =
      "Figure 2: overview" :=
  C8_label_beats_unlabeled "Figure 2: overview" "no label text" 7
    (by decide) (by decide) (by decide)

/-! ### Caption Locator (`_find_caption_four_directions` and helpers) -/

/-- Source `SEARCH_MARGIN` (line 24). -/
def SEARCH_MARGIN : ℚ := 30

/-- Source `LINE_GAP_STOP` (line 25). -/
def LINE_GAP_STOP : ℚ := 18

/-- Source `WORD_JOIN_GAP` (line 26). -/
def WORD_JOIN_GAP : ℚ := 6

/-- Source `CAPTION_MIN_LEN` (line 27). -/
def CAPTION_MIN_LEN : Nat := 8

/-- Python's `str.strip()` (ASCII whitespace). -/
def pyStrip (s : String) : String :=
  String.mk (((s.toList.dropWhile isWsChar).reverse.dropWhile isWsChar).reverse)

/-- Collapse whitespace runs to single spaces (`re.sub(r'\s+', ' ', s)`),
processed with a "previous char was whitespace" flag to stay structural. -/
def normWsAux (prevWs : Bool) : List Char → List Char
  | [] => []
  | c :: rest =>
    if isWsChar c then
      if prevWs then normWsAux true rest else ' ' :: normWsAux true rest
    else c :: normWsAux false rest

/-- Source `re.sub(r'\s+', ' ', s)`. -/
def normWs (s : String) : String := String.mk (normWsAux false s.toList)

/-- The sentence-ending characters of `_truncate_caption_like`'s pattern
`(?<=[。．.!?;；])\s+`. -/
def isSentEndChar (c : Char) : Bool :=
  c == '。' || c == '．' || c == '.' || c == '!' || c == '?' || c == ';' || c == '；'

/-- Scan for the first whitespace char preceded by a sentence-ending char
(the start of the first regex match); everything before it is kept. -/
def truncGo (prev : Char) : List Char → List Char
  | [] => []
  | c :: rest =>
    if isSentEndChar prev && isWsChar c then [] else c :: truncGo c rest

/-- Source `_truncate_caption_like` (lines 182-186): cut at the first
sentence-ending punctuation followed by whitespace, then strip. -/
def truncateCaptionLike (text : String) : String :=
  match text.toList with
  | [] => ""
  | c :: rest => pyStrip (String.mk (c :: truncGo c rest))

/-- Python's `round` (banker's rounding: ties go to the even integer),
used by the line key `round(w["top"]/5)*5`. -/
def pyRound (q : ℚ) : ℤ :=
  let f := ⌊q⌋
  let r := q - (f : ℚ)
  if r < 1 / 2 then f
  else if 1 / 2 < r then f + 1
  else if f % 2 = 0 then f else f + 1

/-- The sort key comparison of `_join_words_linewise` (line 144):
lexicographic on `(round(top/5)*5, x0)`. -/
def wjLe (a b : Word) : Bool :=
  decide (pyRound (a.top / 5) * 5 < pyRound (b.top / 5) * 5 ∨
    (pyRound (a.top / 5) * 5 = pyRound (b.top / 5) * 5 ∧ a.x0 ≤ b.x0))

/-- The line-assembly loop of `_join_words_linewise` (lines 146-166):
words whose `top` stays within `WORD_JOIN_GAP` of the line's first word
extend the current line (with a space inserted for horizontal gaps larger
than `WORD_JOIN_GAP`); otherwise the line is closed and a new one starts. -/
def joinLinesGo : List Word → ℚ → ℚ → List String → List String → List String
  | [], _, _, curLine, lines => lines ++ [String.join curLine]
  | w :: rest, lastTop, lastX1, curLine, lines =>
    if |w.top - lastTop| ≤ WORD_JOIN_GAP then
      joinLinesGo rest lastTop w.x1
        (curLine ++ (if w.x0 - lastX1 > WORD_JOIN_GAP then [" ", w.text] else [w.text]))
        lines
    else
      joinLinesGo rest w.top w.x1 [w.text] (lines ++ [String.join curLine])

/-- Source `_join_words_linewise` (lines 141-167): stable-sort by the line key,
assemble lines, then join the stripped nonempty lines with spaces. -/
def joinWordsLinewise (ws : List Word) : String :=
  match sortLe wjLe ws with
  | [] => ""
  | w :: rest =>
    let lines := joinLinesGo rest w.top w.x1 [w.text] []
    String.intercalate " " ((lines.map pyStrip).filter fun s => !(s == ""))

/-- The four caption search directions, in the dict-insertion order of
line 192 (Python 3.7+ dicts preserve it): bottom, top, right, left. -/
inductive Side
  | bottom
  | top
  | right
  | left
  deriving DecidableEq, Repr

/-- Position of each side in the iteration order of the `regions` dict. -/
def sideIdx : Side → Nat
  | .bottom => 0
  | .top => 1
  | .right => 2
  | .left => 3

/-- The search rectangles of lines 192-197. -/
def sideRect (pw ph : ℚ) (b : Rect) : Side → Rect
  | .bottom => ⟨b.x0, b.y1, b.x1, min ph (b.y1 + 3 * SEARCH_MARGIN)⟩
  | .top => ⟨b.x0, max 0 (b.y0 - 3 * SEARCH_MARGIN), b.x1, b.y0⟩
  | .right => ⟨b.x1, max 0 (b.y0 - SEARCH_MARGIN),
      min pw (b.x1 + 3 * SEARCH_MARGIN), min ph (b.y1 + SEARCH_MARGIN)⟩
  | .left => ⟨max 0 (b.x0 - 3 * SEARCH_MARGIN), max 0 (b.y0 - SEARCH_MARGIN),
      b.x0, min ph (b.y1 + SEARCH_MARGIN)⟩

/-- Axis-scan sort comparison (line 206-207): `(top, x0)` for
bottom/top, `(x0, top)` for right/left. -/
def sideAxisLe : Side → Word → Word → Bool
  | .bottom, a, b => decide (a.top < b.top ∨ (a.top = b.top ∧ a.x0 ≤ b.x0))
  | .top, a, b => decide (a.top < b.top ∨ (a.top = b.top ∧ a.x0 ≤ b.x0))
  | .right, a, b => decide (a.x0 < b.x0 ∨ (a.x0 = b.x0 ∧ a.top ≤ b.top))
  | .left, a, b => decide (a.x0 < b.x0 ∨ (a.x0 = b.x0 ∧ a.top ≤ b.top))

/-- The scan axis of line 211: `top` for bottom/top, `x0` for right/left. -/
def sideAxisOf : Side → Word → ℚ
  | .bottom, w => w.top
  | .top, w => w.top
  | .right, w => w.x0
  | .left, w => w.x0

/-- The per-side distance of lines 223-231 (always clamped at 0). -/
def sideDist (b : Rect) (s : Side) (rect : Rect) : ℚ :=
  match s with
  | .bottom => max 0 (rect.y0 - b.y1)
  | .top => max 0 (b.y0 - rect.y1)
  | .right => max 0 (rect.x0 - b.x1)
  | .left => max 0 (b.x0 - rect.x1)

/-- The axis scan of lines 208-220: collect word texts until the axis gap
to the previous word exceeds `LINE_GAP_STOP` (then `break`). -/
def axisScanGo (axisOf : Word → ℚ) (last : ℚ) : List Word → List String
  | [] => []
  | w :: rest =>
    if |axisOf w - last| > LINE_GAP_STOP then []
    else w.text :: axisScanGo axisOf (axisOf w) rest

/-- The collected `lines` of the axis scan (first word always taken). -/
def sideLines (axisOf : Word → ℚ) : List Word → List String
  | [] => []
  | w :: rest => w.text :: axisScanGo axisOf (axisOf w) rest

/-- One side's caption candidate (the body of the `for side, rect in
regions.items()` loop, lines 199-232): `none` models `continue`. -/
def sideCandidate (pw ph : ℚ) (words : List Word) (b : Rect) (s : Side) :
    Option (String × ℚ) :=
  let rect := sideRect pw ph b s
  let localWords := wordsInRect words rect
  if localWords.isEmpty then none
  else
    let textFull := joinWordsLinewise localWords
    if textFull = "" ∨ textFull.length < CAPTION_MIN_LEN then none
    else
      let axisSorted := sortLe (sideAxisLe s) localWords
      let lines := sideLines (sideAxisOf s) axisSorted
      let textCand := pyStrip (normWs (String.intercalate " " lines))
      if textCand.length ≥ CAPTION_MIN_LEN then some (textCand, sideDist b s rect)
      else none

/-- The candidate list accumulated over the four sides in dict order. -/
def captionCandidates (pw ph : ℚ) (words : List Word) (b : Rect) :
    List (String × ℚ) :=
  [Side.bottom, Side.top, Side.right, Side.left].filterMap
    (sideCandidate pw ph words b)

/-- Source `_find_caption_four_directions` (lines 189-236): pick the best-scoring
candidate, truncating it when nonempty. -/
def findCaptionFourDirections (pw ph : ℚ) (words : List Word) (b : Rect) :
    String :=
  let best := pickBestCaption (captionCandidates pw ph words b)
  if best ≠ "" then truncateCaptionLike best else best

theorem pickBestAux_of_le (best : String × ℚ) :
    ∀ l : List (String × ℚ),
      (∀ x ∈ l, captionScore x ≤ captionScore best) →
      pickBestAux best l = best := by
  intro l
  induction l with
  | nil => intro _; rfl
  | cons c cs ih =>
    intro h
    rw [pickBestAux, if_neg (not_lt.mpr (h c (List.mem_cons_self c cs)))]
    exact ih fun x hx => h x (List.mem_cons_of_mem c hx)

theorem pickBestAux_append (best : String × ℚ) (l1 l2 : List (String × ℚ)) :
    pickBestAux best (l1 ++ l2) = pickBestAux (pickBestAux best l1) l2 := by
  induction l1 generalizing best with
  | nil => rfl
  | cons c cs ih => rw [List.cons_append, pickBestAux, pickBestAux, ih]

theorem pickBestAux_mem (best : String × ℚ) :
    ∀ l, pickBestAux best l = best ∨ pickBestAux best l ∈ l := by
  intro l
  induction l generalizing best with
  | nil => left; rfl
  | cons c cs ih =>
    rw [pickBestAux]
    rcases ih (if captionScore c > captionScore best then c else best) with h | h
    · rw [h]
      split_ifs with hc
      · right; exact List.mem_cons_self c cs
      · left; rfl
    · right; exact List.mem_cons_of_mem c h

/-- Source `max(candidates, key=score)` returns the first element attaining the
maximal score: everything before `a` scores strictly lower, everything
after scores no higher, and `a`'s text is returned. -/
theorem pickBestCaption_first_max (pre : List (String × ℚ)) (a : String × ℚ)
    (post : List (String × ℚ))
    (hpre : ∀ x ∈ pre, captionScore x < captionScore a)
    (hpost : ∀ x ∈ post, captionScore x ≤ captionScore a) :
    pickBestCaption (pre ++ a :: post) = a.1 := by
  cases pre with
  | nil => rw [List.nil_append, pickBestCaption, pickBestAux_of_le a post hpost]
  | cons p pre' =>
    rw [List.cons_append, pickBestCaption, pickBestAux_append]
    have hqlt : captionScore (pickBestAux p pre') < captionScore a := by
      rcases pickBestAux_mem p pre' with h | h
      · rw [h]; exact hpre p (List.mem_cons_self p pre')
      · exact hpre _ (List.mem_cons_of_mem p h)
    rw [pickBestAux, if_pos hqlt, pickBestAux_of_le a post hpost]

theorem sideCandidate_length (pw ph : ℚ) (words : List Word) (b : Rect)
    (s : Side) (c : String × ℚ)
    (h : sideCandidate pw ph words b s = some c) :
    CAPTION_MIN_LEN ≤ c.1.length := by
  simp only [sideCandidate] at h
  split_ifs at h with h1 h2 h3
  all_goals
    first
      | exact Option.noConfusion h
      | (injection h with h; subst h; exact h3)

/-- Generic earliest-maximum property of the four-direction search: if the
side list decomposes as `pre ++ s1 :: post`, `s1` yields candidate `c1`,
every candidate from the earlier sides scores strictly lower and every
candidate overall scores no higher, then the search returns `c1`'s text
(truncated). -/
theorem findCaption_earliest (pw ph : ℚ) (words : List Word) (b : Rect)
    (pre post : List Side) (s1 : Side) (c1 : String × ℚ)
    (hsides : [Side.bottom, Side.top, Side.right, Side.left] = pre ++ s1 :: post)
    (hs1 : sideCandidate pw ph words b s1 = some c1)
    (hpre : ∀ s ∈ pre, ∀ c, sideCandidate pw ph words b s = some c →
      captionScore c < captionScore c1)
    (hmax : ∀ c ∈ captionCandidates pw ph words b,
      captionScore c ≤ captionScore c1) :
    findCaptionFourDirections pw ph words b = truncateCaptionLike c1.1 := by
  have hcands : captionCandidates pw ph words b =
      pre.filterMap (sideCandidate pw ph words b) ++ c1 ::
      post.filterMap (sideCandidate pw ph words b) := by
    rw [captionCandidates, hsides, List.filterMap_append]
    congr 1
    rw [List.filterMap_cons, hs1]
  have hne : c1.1 ≠ "" := by
    have hlen := sideCandidate_length pw ph words b s1 c1 hs1
    intro h0
    rw [h0] at hlen
    simp [CAPTION_MIN_LEN] at hlen
  have hpick : pickBestCaption (captionCandidates pw ph words b) = c1.1 := by
    rw [hcands]
    refine pickBestCaption_first_max _ c1 _ ?_ ?_
    · intro x hx
      obtain ⟨s, hs, hfx⟩ := List.mem_filterMap.1 hx
      exact hpre s hs x hfx
    · intro x hx
      refine hmax x ?_
      rw [hcands]
      exact List.mem_append_right _ (List.mem_cons_of_mem _ hx)
  simp only [findCaptionFourDirections, hpick]
  rw [if_pos hne]

/-- C9.  When the candidates of two sides tie at the maximal score, the side
gathered first in the fixed region order (bottom, top, right, left) wins:
candidates are collected in that dict-insertion order and `max` keeps the
earliest element on ties, so the earlier side's text (truncated) is
returned. -/
theorem C9_earliest_side_wins_ties (pw ph : ℚ) (words : List Word) (b : Rect)
    (s1 s2 : Side) (c1 c2 : String × ℚ)
    (horder : sideIdx s1 < sideIdx s2)
    (hs1 : sideCandidate pw ph words b s1 = some c1)
    (_hs2 : sideCandidate pw ph words b s2 = some c2)
    (_heq : captionScore c1 = captionScore c2)
    (hmax : ∀ c ∈ captionCandidates pw ph words b,
      captionScore c ≤ captionScore c1)
    (hearlier : ∀ s, sideIdx s < sideIdx s1 → ∀ c,
      sideCandidate pw ph words b s = some c →
      captionScore c < captionScore c1) :
    findCaptionFourDirections pw ph words b = truncateCaptionLike c1.1 := by
  cases s1 with
  | bottom =>
    refine findCaption_earliest pw ph words b [] [Side.top, Side.right, Side.left]
      Side.bottom c1 rfl hs1 ?_ hmax
    intro s hs
    simp at hs
  | top =>
    refine findCaption_earliest pw ph words b [Side.bottom] [Side.right, Side.left]
      Side.top c1 rfl hs1 ?_ hmax
    intro s hs c hc
    rcases List.mem_singleton.1 hs with rfl
    exact hearlier Side.bottom (by decide) c hc
  | right =>
    refine findCaption_earliest pw ph words b [Side.bottom, Side.top] [Side.left]
      Side.right c1 rfl hs1 ?_ hmax
    intro s hs c hc
    simp only [List.mem_cons, List.not_mem_nil, or_false] at hs
    rcases hs with rfl | rfl
    · exact hearlier Side.bottom (by decide) c hc
    · exact hearlier Side.top (by decide) c hc
  | left =>
    refine findCaption_earliest pw ph words b [Side.bottom, Side.top, Side.right]
      [] Side.left c1 rfl hs1 ?_ hmax
    intro s hs c hc
    simp only [List.mem_cons, List.not_mem_nil, or_false] at hs
    rcases hs with rfl | rfl | rfl
    · exact hearlier Side.bottom (by decide) c hc
    · exact hearlier Side.top (by decide) c hc
    · exact hearlier Side.right (by decide) c hc

/-- C10 page input: three tokens "Fig." "1." "Overview" on one text line
directly below the candidate box. -/
def c10words : List Word :=
  [⟨10, 30, 110, 120, "Fig."⟩, ⟨35, 45, 110, 120, "1."⟩, ⟨50, 90, 110, 120, "Overview"⟩]

/-- C10.  The minimum-caption-length check runs on the side's collected text
("Fig. 1. Overview", 16 chars ≥ 8) before `_truncate_caption_like` cuts at
the first sentence-ending punctuation, so the caption the locator returns is
"Fig." — non-empty yet strictly shorter than `CAPTION_MIN_LEN`. -/
theorem C10_short_caption_after_min_length_check :
    sideCandidate 200 300 c10words ⟨0, 0, 100, 100⟩ Side.bottom =
      some ("Fig. 1. Overview", 0) ∧
    CAPTION_MIN_LEN ≤ ("Fig. 1. Overview" : String).length ∧
    findCaptionFourDirections 200 300 c10words ⟨0, 0, 100, 100⟩ = "Fig." ∧
    ("Fig." : String) ≠ "" ∧
    ("Fig." : String).length < CAPTION_MIN_LEN := by
  have hcands : captionCandidates 200 300 c10words ⟨0, 0, 100, 100⟩ =
      [("Fig. 1. Overview", 0)] := by
    norm_num [captionCandidates, List.filterMap, sideCandidate, sideRect,
      SEARCH_MARGIN, wordsInRect, c10words, joinWordsLinewise, sortLe,
      insertLe, wjLe, pyRound, joinLinesGo, WORD_JOIN_GAP, LINE_GAP_STOP,
      CAPTION_MIN_LEN, sideAxisLe, sideAxisOf, sideLines, axisScanGo,
      sideDist, pyStrip, normWs, normWsAux, isWsChar, min_def, max_def,
      List.filter]
    decide
  refine ⟨?_, by decide, ?_, by decide, by decide⟩
  · norm_num [sideCandidate, sideRect, SEARCH_MARGIN, wordsInRect, c10words,
      joinWordsLinewise, sortLe, insertLe, wjLe, pyRound, joinLinesGo,
      WORD_JOIN_GAP, LINE_GAP_STOP, CAPTION_MIN_LEN, sideAxisLe, sideAxisOf,
      sideLines, axisScanGo, sideDist, pyStrip, normWs, normWsAux, isWsChar,
      min_def, max_def, List.filter]
    decide
  · simp only [findCaptionFourDirections, hcands]
    decide

/-- C9 witness input: one token below the box and one above it, neither
labeled, both 12 characters, both at distance 0. -/
def c9words : List Word :=
  [⟨10, 60, 110, 120, "belowcaption"⟩, ⟨10, 60, 20, 30, "abovecaption"⟩]

/-- C9 — witness: bottom and top tie at score 0 and the bottom side's text
is returned. -/
theorem C9_earliest_side_wins_ties_witness :
    findCaptionFourDirections 200 300 c9words ⟨0, 50, 100, 100⟩ =
      truncateCaptionLike "belowcaption" := by
  have hs1 : sideCandidate 200 300 c9words ⟨0, 50, 100, 100⟩ Side.bottom =
      some ("belowcaption", 0) := by
    norm_num [sideCandidate, sideRect, SEARCH_MARGIN, wordsInRect, c9words,
      joinWordsLinewise, sortLe, insertLe, wjLe, pyRound, joinLinesGo,
      WORD_JOIN_GAP, LINE_GAP_STOP, CAPTION_MIN_LEN, sideAxisLe, sideAxisOf,
      sideLines, axisScanGo, sideDist, pyStrip, normWs, normWsAux, isWsChar,
      min_def, max_def, List.filter]
    decide
  have hs2 : sideCandidate 200 300 c9words ⟨0, 50, 100, 100⟩ Side.top =
      some ("abovecaption", 0) := by
    norm_num [sideCandidate, sideRect, SEARCH_MARGIN, wordsInRect, c9words,
      joinWordsLinewise, sortLe, insertLe, wjLe, pyRound, joinLinesGo,
      WORD_JOIN_GAP, LINE_GAP_STOP, CAPTION_MIN_LEN, sideAxisLe, sideAxisOf,
      sideLines, axisScanGo, sideDist, pyStrip, normWs, normWsAux, isWsChar,
      min_def, max_def, List.filter]
    decide
  have hcands : captionCandidates 200 300 c9words ⟨0, 50, 100, 100⟩ =
      [("belowcaption", 0), ("abovecaption", 0)] := by
    norm_num [captionCandidates, List.filterMap, sideCandidate, sideRect,
      SEARCH_MARGIN, wordsInRect, c9words, joinWordsLinewise, sortLe,
      insertLe, wjLe, pyRound, joinLinesGo, WORD_JOIN_GAP, LINE_GAP_STOP,
      CAPTION_MIN_LEN, sideAxisLe, sideAxisOf, sideLines, axisScanGo,
      sideDist, pyStrip, normWs, normWsAux, isWsChar, min_def, max_def,
      List.filter]
    decide
  have hb : hasLabel "belowcaption" = false := by decide
  have ha : hasLabel "abovecaption" = false := by decide
  have heq : captionScore ("belowcaption", 0) = captionScore ("abovecaption", 0) := by
    simp only [captionScore, hb, ha]
    norm_num [show (("belowcaption" : String).length : ℤ) = 12 from by decide,
      show (("abovecaption" : String).length : ℤ) = 12 from by decide]
  have hmax : ∀ c ∈ captionCandidates 200 300 c9words ⟨0, 50, 100, 100⟩,
      captionScore c ≤ captionScore ("belowcaption", 0) := by
    intro c hc
    rw [hcands] at hc
    simp only [List.mem_cons, List.not_mem_nil, or_false] at hc
    rcases hc with rfl | rfl
    · exact le_refl _
    · exact le_of_eq heq.symm
  have hearlier : ∀ s, sideIdx s < sideIdx Side.bottom → ∀ c,
      sideCandidate 200 300 c9words ⟨0, 50, 100, 100⟩ s = some c →
      captionScore c < captionScore ("belowcaption", 0) := by
    intro s hs
    exact absurd hs (Nat.not_lt_zero _)
  exact C9_earliest_side_wins_ties 200 300 c9words ⟨0, 50, 100, 100⟩
    Side.bottom Side.top ("belowcaption", 0) ("abovecaption", 0)
    (by decide) hs1 hs2 heq hmax hearlier

/-! ### Label normalisation and identifiers (lines 64-96, 399) -/

/-- Python's `str.upper()` (ASCII letters uppercased, CJK unchanged). -/
def pyUpper (s : String) : String := String.mk (s.toList.map Char.toUpper)

/-- Source `_extract_origin_id_from_caption` (lines 64-70): if `LABEL_REGEX`
matches, combine the prefix matched by the prefix-only regex of line 67 with
the captured number; otherwise the empty string.  (When `LABEL_REGEX`
matches, the prefix-only regex always matches too, so its `none` case is
unreachable.) -/
def extractOriginId (caption : String) : String :=
  match labelNumber caption with
  | none => ""
  | some number =>
    match labelPrefixText caption with
    | some prefixText => prefixText ++ " " ++ number
    | none => ""

/-- The anchored prefix test of line 86:
`^(Fig(?:\.|ure)?|Figs?|Table|Tab\.?)$`, case-insensitive. -/
def isEnglishLabelPrefixText (p : String) : Bool :=
  let l := p.toLower
  l == "fig" || l == "fig." || l == "figure" || l == "figs" ||
    l == "table" || l == "tab" || l == "tab."

/-- Source `_normalize_label_for_filename` (lines 73-92). -/
def normalizeLabelForFilename (caption : String) : String :=
  if caption = "" then ""
  else
    match labelNumber caption with
    | none => ""
    | some number =>
      match labelPrefixText caption with
      | none => ""
      | some prefixText =>
        if isEnglishLabelPrefixText prefixText then
          let n1 := (pyUpper prefixText).replace "FIG." "FIG"
          let n2 := n1.replace "TAB." "TABLE"
          let n3 := if n2 == "FIGS" then "FIGURES" else n2
          n3 ++ " " ++ number
        else prefixText ++ " " ++ number

/-- Source `_sanitize_for_filename` (lines 95-96): replace `\/*?:"<>|` with `_`. -/
def sanitizeForFilename (s : String) : String :=
  String.mk (s.toList.map
    fun c => if ['\\', '/', '*', '?', ':', '"', '<', '>', '|'].contains c
      then '_' else c)

/-- The `(?:\.\d+)*` tail (greedy), fuelled by the input length. -/
def dotNumberTail : Nat → List Char → List Char
  | 0, _ => []
  | _ + 1, [] => []
  | fuel + 1, c :: rest =>
    if c == '.' then
      match rest.span (fun d => d.isDigit) with
      | ([], _) => []
      | (d, r) => c :: (d ++ dotNumberTail fuel r)
    else []

/-- The prefix alternatives of the figure-id regex of line 399,
`Fig(?:ure)?s?`, expanded in backtracking order. -/
def figIdAlternatives : List (List Char) :=
  ["Figures".toList, "Figure".toList, "Figs".toList, "Fig".toList]

/-- Source `re.match(r'^(Fig(?:ure)?s?[\s\-]*\d+(?:\.\d+)*)', caption, re.I)`
(line 399), returning the captured text in its original case. -/
def figureIdMatch (caption : String) : Option String :=
  let cs := caption.toList
  figIdAlternatives.findSome? fun p =>
    match ciPrefixRest p cs with
    | none => none
    | some rest =>
      let sep := rest.takeWhile fun c => isWsChar c || c == '-'
      let r := rest.drop sep.length
      match r.span (fun c => c.isDigit) with
      | ([], _) => none
      | (ds, r2) =>
        some (String.mk (cs.take p.length ++ sep ++ ds ++ dotNumberTail r2.length r2))

/-! ### Graphic Clusterer (`_gather_graphic_boxes`, lines 239-271) -/

/-- Source `MERGE_DIST` (line 29). -/
def MERGE_DIST : ℚ := 12

/-- Source `MIN_GRAPHIC_W` (line 30). -/
def MIN_GRAPHIC_W : ℚ := 120

/-- Source `MIN_GRAPHIC_H` (line 31). -/
def MIN_GRAPHIC_H : ℚ := 80

/-- Accumulate primitive-type counts when a primitive joins a cluster. -/
def addStats (a b : PrimStat) : PrimStat :=
  ⟨a.lines + b.lines, a.rects + b.rects, a.curves + b.curves⟩

/-- One clustering step (lines 250-265): the primitive's box expanded by
`MERGE_DIST` is tested against each existing cluster in order; the first
cluster within `MERGE_DIST` absorbs it, otherwise a fresh cluster is
appended. -/
def addPrimitive : List (Rect × PrimStat) → Rect × PrimStat → List (Rect × PrimStat)
  | [], p => [p]
  | (cb, cst) :: rest, (bbox, st) =>
    if bboxDistSq (bboxExpand bbox MERGE_DIST) cb ≤ MERGE_DIST ^ 2 then
      (bboxUnion cb bbox, addStats cst st) :: rest
    else
      (cb, cst) :: addPrimitive rest (bbox, st)

/-- Source `_gather_graphic_boxes`: cluster all primitives, then keep clusters of
at least `MIN_GRAPHIC_W × MIN_GRAPHIC_H` (lines 266-271). -/
def gatherGraphicBoxes (prims : List (Rect × PrimStat)) : List (Rect × PrimStat) :=
  (prims.foldl addPrimitive []).filter fun p =>
    decide (p.1.x1 - p.1.x0 ≥ MIN_GRAPHIC_W ∧ p.1.y1 - p.1.y0 ≥ MIN_GRAPHIC_H)

/-! ### Per-candidate pipeline (lines 312-414) -/

/-- Source `MIN_IMG_WIDTH` (line 17). -/
def MIN_IMG_WIDTH : Nat := 200

/-- Source `MIN_IMG_HEIGHT` (line 18). -/
def MIN_IMG_HEIGHT : Nat := 100

/-- Source `HASH_THRESHOLD` (line 20). -/
def HASH_THRESHOLD : Nat := 5

/-- Hamming distance between two 64-bit perceptual fingerprints, the value
of `abs(hash_a - hash_b)` on `imagehash` values (count of differing bits). -/
def phashDist (a b : Nat) : Nat :=
  ((List.range 64).filter fun i => a.testBit i != b.testBit i).length

theorem phashDist_comm (a b : Nat) : phashDist a b = phashDist b a := by
  unfold phashDist
  congr 1
  apply List.filter_congr
  intro i _
  cases a.testBit i <;> cases b.testBit i <;> rfl

/-- Source `_clip_to_page` (lines 124-133): clamp the box to the page box and drop
degenerate results (extent ≤ 1 on either axis). -/
def clipToPage (b : Rect) (pbox : Rect) : Option Rect :=
  let x0 := max pbox.x0 (min b.x0 pbox.x1)
  let y0 := max pbox.y0 (min b.y0 pbox.y1)
  let x1 := max pbox.x0 (min b.x1 pbox.x1)
  let y1 := max pbox.y0 (min b.y1 pbox.y1)
  if x1 - x0 ≤ 1 ∨ y1 - y0 ≤ 1 then none else some ⟨x0, y0, x1, y1⟩

/-- Result of the external renderer
(`page.within_bbox(...).to_image(resolution=180).original`) together with
the perceptual hash and mean edge density computed from those pixels:
observable width/height and the two image-derived numbers the pipeline
branches on. -/
structure RenderOut where
  width : Nat
  height : Nat
  phash : Nat
  meanEdge : ℚ
  deriving DecidableEq, Repr

/-- One page as supplied by the document decoder: page dimensions, page
box, text tokens, raster image boxes, and tagged vector primitives (the
flattened lines/rects/curves of lines 242-247, in encounter order). -/
structure PageData where
  pageWidth : ℚ
  pageHeight : ℚ
  pbox : Rect
  words : List Word
  rasterBoxes : List Rect
  primitives : List (Rect × PrimStat)

/-- An emitted figure record (lines 402-411), before the contexts
post-pass. -/
structure FigRecord where
  figure_id : String
  origin_id : String
  page : Nat
  caption : String
  image_path : String
  width : Nat
  height : Nat
  phash : Nat
  deriving DecidableEq, Repr

/-- Outcome of processing one candidate: the emitted record (if any), the
updated hash ledger, and which stages of the source executed — caption
extraction (line 354), the content classifier (lines 369-377), and the
dedup check (lines 380-383).  The source's own skip log for small images
already prints the caption-derived `origin_id`, witnessing that caption
extraction precedes the size filter. -/
structure StepOut where
  record : Option FigRecord
  kept : List Nat
  captionRan : Bool
  classifierRan : Bool
  dedupRan : Bool
  deriving DecidableEq, Repr

/-- The body of the per-candidate loop (lines 346-411), on the happy path
of its `try` block: clip, caption search, identifier synthesis, render,
size filter, plain-text filter, perceptual dedup, and record emission. -/
def processCandidate (render : Rect → RenderOut) (pd : PageData)
    (gstats : List (Rect × PrimStat)) (stem outDir : String)
    (pageNum idx : Nat) (kept : List Nat) (bbox : Rect) : StepOut :=
  match clipToPage bbox pd.pbox with
  | none => ⟨none, kept, false, false, false⟩
  | some clipped =>
    let caption :=
      findCaptionFourDirections pd.pageWidth pd.pageHeight pd.words clipped
    let originIdRaw := if caption ≠ "" then extractOriginId caption else ""
    let originId := pyUpper (if originIdRaw ≠ "" then originIdRaw
      else "FIG_P" ++ toString pageNum ++ "_" ++ toString idx)
    let r := render clipped
    if r.width < MIN_IMG_WIDTH ∨ r.height < MIN_IMG_HEIGHT then
      ⟨none, kept, true, false, false⟩
    else
      let statsHint :=
        (gstats.find? fun g => decide (bboxDistSq clipped g.1 < 5 ^ 2)).map Prod.snd
      if looksLikePlainText (textCoverage pd.words clipped) r.meanEdge statsHint then
        ⟨none, kept, true, true, false⟩
      else if kept.any fun h => decide (phashDist r.phash h ≤ HASH_THRESHOLD) then
        ⟨none, kept, true, true, true⟩
      else
        let labelForName := normalizeLabelForFilename caption
        let fileTail := if labelForName ≠ "" then sanitizeForFilename labelForName
          else sanitizeForFilename originId
        let imgPath := outDir ++ "/" ++ stem ++ "_p" ++ toString pageNum ++ "_" ++
          fileTail ++ ".png"
        let figureId := if originIdRaw ≠ "" then originIdRaw
          else match figureIdMatch caption with
            | some m => m
            | none => "fig_p" ++ toString pageNum ++ "_" ++ toString idx
        ⟨some ⟨figureId, originId, pageNum, caption, imgPath, r.width, r.height, r.phash⟩,
         kept ++ [r.phash], true, true, true⟩

/-- The candidate loop of one page (lines 346-413), threading the hash
ledger and the accumulated records; `idx` is the 1-based candidate index. -/
def processPageAux (render : Rect → RenderOut) (pd : PageData)
    (gstats : List (Rect × PrimStat)) (stem outDir : String) (pageNum : Nat) :
    List Rect → Nat → List Nat → List FigRecord → List Nat × List FigRecord
  | [], _, kept, figs => (kept, figs)
  | c :: cs, idx, kept, figs =>
    let out := processCandidate render pd gstats stem outDir pageNum idx kept c
    processPageAux render pd gstats stem outDir pageNum cs (idx + 1) out.kept
      (figs ++ out.record.toList)

/-- One page of the main loop (lines 318-343 feeding the candidate loop):
gather graphic clusters, merge raster and graphic boxes into candidates,
then process each candidate. -/
def processPage (render : Rect → RenderOut) (stem outDir : String)
    (pageNum : Nat) (pd : PageData) (kept : List Nat) (figs : List FigRecord) :
    List Nat × List FigRecord :=
  let gstats := gatherGraphicBoxes pd.primitives
  let candidates := buildCandidates (pd.rasterBoxes ++ gstats.map Prod.fst)
  processPageAux render pd gstats stem outDir pageNum candidates 1 kept figs

/-- The page loop of `extract_images_and_captions` (lines 312-414):
`pageNum` is 1-based; the hash ledger starts empty and lives for the whole
document. -/
def extractPagesAux (render : Rect → RenderOut) (stem outDir : String) :
    List PageData → Nat → List Nat → List FigRecord → List FigRecord
  | [], _, _, figs => figs
  | pd :: rest, pageNum, kept, figs =>
    let out := processPage render stem outDir pageNum pd kept figs
    extractPagesAux render stem outDir rest (pageNum + 1) out.1 out.2

/-- Source `extract_images_and_captions` over the decoded pages of one document. -/
def extractImagesAndCaptions (render : Rect → RenderOut)
    (stem outDir : String) (pages : List PageData) : List FigRecord :=
  extractPagesAux render stem outDir pages 1 [] []

/-! ### Size, classification and dedup invariants of the candidate loop -/

/-- A hash ledger whose entries are pairwise more than the threshold
apart. -/
def goodLedger (kept : List Nat) : Prop :=
  List.Pairwise (fun a b => HASH_THRESHOLD < phashDist a b) kept

theorem processCandidate_cases (render : Rect → RenderOut) (pd : PageData)
    (gstats : List (Rect × PrimStat)) (stem outDir : String)
    (pageNum idx : Nat) (kept : List Nat) (bbox : Rect) :
    (∃ rec,
      (processCandidate render pd gstats stem outDir pageNum idx kept bbox).record
        = some rec ∧
      (processCandidate render pd gstats stem outDir pageNum idx kept bbox).kept
        = kept ++ [rec.phash] ∧
      MIN_IMG_WIDTH ≤ rec.width ∧ MIN_IMG_HEIGHT ≤ rec.height ∧
      ∀ h ∈ kept, HASH_THRESHOLD < phashDist rec.phash h) ∨
    ((processCandidate render pd gstats stem outDir pageNum idx kept bbox).record
        = none ∧
     (processCandidate render pd gstats stem outDir pageNum idx kept bbox).kept
        = kept) := by
  cases hclip : clipToPage bbox pd.pbox with
  | none =>
    right
    unfold processCandidate
    rw [hclip]
    exact ⟨rfl, rfl⟩
  | some clipped =>
    unfold processCandidate
    rw [hclip]
    dsimp only
    by_cases h1 : (render clipped).width < MIN_IMG_WIDTH ∨
        (render clipped).height < MIN_IMG_HEIGHT
    · rw [if_pos h1]
      exact Or.inr ⟨rfl, rfl⟩
    · rw [if_neg h1]
      by_cases h2 : looksLikePlainText (textCoverage pd.words clipped)
          (render clipped).meanEdge
          (Option.map Prod.snd
            (List.find? (fun g => decide (bboxDistSq clipped g.1 < 5 ^ 2)) gstats))
          = true
      · rw [if_pos h2]
        exact Or.inr ⟨rfl, rfl⟩
      · rw [if_neg h2]
        by_cases h3 : (kept.any fun h =>
            decide (phashDist (render clipped).phash h ≤ HASH_THRESHOLD)) = true
        · rw [if_pos h3]
          exact Or.inr ⟨rfl, rfl⟩
        · rw [if_neg h3]
          left
          push_neg at h1
          refine ⟨_, rfl, rfl, h1.1, h1.2, ?_⟩
          intro h hmem
          have h3' : ¬ ∃ x ∈ kept,
              decide (phashDist (render clipped).phash x ≤ HASH_THRESHOLD) = true := by
            rw [← List.any_eq_true]
            exact h3
          push_neg at h3'
          have hx : ¬ phashDist (render clipped).phash h ≤ HASH_THRESHOLD :=
            fun hc => h3' h hmem (decide_eq_true hc)
          exact Nat.not_le.1 hx

theorem processCandidate_near_dup (render : Rect → RenderOut) (pd : PageData)
    (gstats : List (Rect × PrimStat)) (stem outDir : String)
    (pageNum idx : Nat) (kept : List Nat) (bbox clipped : Rect)
    (hclip : clipToPage bbox pd.pbox = some clipped)
    (hnear : ∃ h ∈ kept, phashDist (render clipped).phash h ≤ HASH_THRESHOLD) :
    (processCandidate render pd gstats stem outDir pageNum idx kept bbox).record
      = none ∧
    (processCandidate render pd gstats stem outDir pageNum idx kept bbox).kept
      = kept := by
  unfold processCandidate
  rw [hclip]
  dsimp only
  by_cases h1 : (render clipped).width < MIN_IMG_WIDTH ∨
      (render clipped).height < MIN_IMG_HEIGHT
  · rw [if_pos h1]
    exact ⟨rfl, rfl⟩
  · rw [if_neg h1]
    by_cases h2 : looksLikePlainText (textCoverage pd.words clipped)
        (render clipped).meanEdge
        (Option.map Prod.snd
          (List.find? (fun g => decide (bboxDistSq clipped g.1 < 5 ^ 2)) gstats))
        = true
    · rw [if_pos h2]
      exact ⟨rfl, rfl⟩
    · rw [if_neg h2]
      have h3 : (kept.any fun h =>
          decide (phashDist (render clipped).phash h ≤ HASH_THRESHOLD)) = true := by
        rw [List.any_eq_true]
        obtain ⟨h, hmem, hle⟩ := hnear
        exact ⟨h, hmem, decide_eq_true hle⟩
      rw [if_pos h3]
      exact ⟨rfl, rfl⟩

theorem processPageAux_invariant (render : Rect → RenderOut) (pd : PageData)
    (gstats : List (Rect × PrimStat)) (stem outDir : String) (pageNum : Nat) :
    ∀ (cs : List Rect) (idx : Nat) (kept : List Nat) (figs : List FigRecord),
      goodLedger kept →
      (∀ r ∈ figs, r.phash ∈ kept) →
      List.Pairwise (fun r1 r2 => HASH_THRESHOLD < phashDist r1.phash r2.phash) figs →
      goodLedger
        (processPageAux render pd gstats stem outDir pageNum cs idx kept figs).1 ∧
      (∀ r ∈ (processPageAux render pd gstats stem outDir pageNum cs idx kept figs).2,
        r.phash ∈
          (processPageAux render pd gstats stem outDir pageNum cs idx kept figs).1) ∧
      List.Pairwise (fun r1 r2 => HASH_THRESHOLD < phashDist r1.phash r2.phash)
        (processPageAux render pd gstats stem outDir pageNum cs idx kept figs).2 := by
  intro cs
  induction cs with
  | nil =>
    intro idx kept figs h1 h2 h3
    exact ⟨h1, h2, h3⟩
  | cons c cs ih =>
    intro idx kept figs h1 h2 h3
    unfold processPageAux
    dsimp only
    rcases processCandidate_cases render pd gstats stem outDir pageNum idx kept c with
      ⟨rec, hrec, hkept, _, _, hfar⟩ | ⟨hrec, hkept⟩
    · rw [hrec, hkept]
      simp only [Option.toList_some]
      apply ih
      · refine List.pairwise_append.2 ⟨h1, List.pairwise_singleton _ _, ?_⟩
        intro a ha b hb
        rw [List.mem_singleton] at hb
        subst hb
        rw [phashDist_comm]
        exact hfar a ha
      · intro r hr
        rcases List.mem_append.1 hr with hr | hr
        · exact List.mem_append_left _ (h2 r hr)
        · rw [List.mem_singleton] at hr
          subst hr
          exact List.mem_append_right _ (List.mem_singleton.2 rfl)
      · refine List.pairwise_append.2 ⟨h3, List.pairwise_singleton _ _, ?_⟩
        intro r1 hr1 r2 hr2
        rw [List.mem_singleton] at hr2
        subst hr2
        rw [phashDist_comm]
        exact hfar r1.phash (h2 r1 hr1)
    · rw [hrec, hkept]
      simp only [Option.toList_none, List.append_nil]
      exact ih (idx + 1) kept figs h1 h2 h3

theorem extractPagesAux_invariant (render : Rect → RenderOut)
    (stem outDir : String) :
    ∀ (pages : List PageData) (pageNum : Nat) (kept : List Nat)
      (figs : List FigRecord),
      goodLedger kept →
      (∀ r ∈ figs, r.phash ∈ kept) →
      List.Pairwise (fun r1 r2 => HASH_THRESHOLD < phashDist r1.phash r2.phash) figs →
      List.Pairwise (fun r1 r2 => HASH_THRESHOLD < phashDist r1.phash r2.phash)
        (extractPagesAux render stem outDir pages pageNum kept figs) := by
  intro pages
  induction pages with
  | nil =>
    intro pageNum kept figs _ _ h3
    exact h3
  | cons pd rest ih =>
    intro pageNum kept figs h1 h2 h3
    unfold extractPagesAux processPage
    dsimp only
    obtain ⟨g1, g2, g3⟩ :=
      processPageAux_invariant render pd (gatherGraphicBoxes pd.primitives)
        stem outDir pageNum
        (buildCandidates (pd.rasterBoxes ++
          (gatherGraphicBoxes pd.primitives).map Prod.fst)) 1 kept figs h1 h2 h3
    exact ih (pageNum + 1) _ _ g1 g2 g3

/-- C1.  All figure records emitted for one document are pairwise more than
`HASH_THRESHOLD` apart in perceptual-hash Hamming distance (the ledger is
compared against all kept hashes), and a candidate whose rendered image's
hash is within the threshold of any ledger entry emits no record and
appends nothing to the ledger. -/
theorem C1_dedup_invariant_and_reject (render : Rect → RenderOut)
    (stem outDir : String) (pages : List PageData) (pd : PageData)
    (gstats : List (Rect × PrimStat)) (pageNum idx : Nat) (kept : List Nat)
    (bbox clipped : Rect)
    (hclip : clipToPage bbox pd.pbox = some clipped)
    (hnear : ∃ h ∈ kept, phashDist (render clipped).phash h ≤ HASH_THRESHOLD) :
    List.Pairwise (fun r1 r2 => HASH_THRESHOLD < phashDist r1.phash r2.phash)
      (extractImagesAndCaptions render stem outDir pages) ∧
    (processCandidate render pd gstats stem outDir pageNum idx kept bbox).record
      = none ∧
    (processCandidate render pd gstats stem outDir pageNum idx kept bbox).kept
      = kept := by
  refine ⟨?_, processCandidate_near_dup render pd gstats stem outDir pageNum idx
    kept bbox clipped hclip hnear⟩
  unfold extractImagesAndCaptions
  exact extractPagesAux_invariant render stem outDir pages 1 [] []
    List.Pairwise.nil (by intro r hr; cases hr) List.Pairwise.nil

theorem processPageAux_size (render : Rect → RenderOut) (pd : PageData)
    (gstats : List (Rect × PrimStat)) (stem outDir : String) (pageNum : Nat) :
    ∀ (cs : List Rect) (idx : Nat) (kept : List Nat) (figs : List FigRecord),
      (∀ r ∈ figs, MIN_IMG_WIDTH ≤ r.width ∧ MIN_IMG_HEIGHT ≤ r.height) →
      ∀ r ∈ (processPageAux render pd gstats stem outDir pageNum cs idx kept figs).2,
        MIN_IMG_WIDTH ≤ r.width ∧ MIN_IMG_HEIGHT ≤ r.height := by
  intro cs
  induction cs with
  | nil =>
    intro idx kept figs h
    exact h
  | cons c cs ih =>
    intro idx kept figs h
    unfold processPageAux
    dsimp only
    rcases processCandidate_cases render pd gstats stem outDir pageNum idx kept c with
      ⟨rec, hrec, _, hw, hh, _⟩ | ⟨hrec, _⟩
    · rw [hrec]
      simp only [Option.toList_some]
      apply ih
      intro r hr
      rcases List.mem_append.1 hr with hr | hr
      · exact h r hr
      · rw [List.mem_singleton] at hr
        subst hr
        exact ⟨hw, hh⟩
    · rw [hrec]
      simp only [Option.toList_none, List.append_nil]
      exact ih (idx + 1) _ figs h

theorem extractPagesAux_size (render : Rect → RenderOut) (stem outDir : String) :
    ∀ (pages : List PageData) (pageNum : Nat) (kept : List Nat)
      (figs : List FigRecord),
      (∀ r ∈ figs, MIN_IMG_WIDTH ≤ r.width ∧ MIN_IMG_HEIGHT ≤ r.height) →
      ∀ r ∈ extractPagesAux render stem outDir pages pageNum kept figs,
        MIN_IMG_WIDTH ≤ r.width ∧ MIN_IMG_HEIGHT ≤ r.height := by
  intro pages
  induction pages with
  | nil =>
    intro pageNum kept figs h
    exact h
  | cons pd rest ih =>
    intro pageNum kept figs h
    unfold extractPagesAux processPage
    dsimp only
    exact ih (pageNum + 1) _ _
      (processPageAux_size render pd (gatherGraphicBoxes pd.primitives)
        stem outDir pageNum _ 1 kept figs h)

/-- C2.  Every emitted figure record has width at least `MIN_IMG_WIDTH`
(200) and height at least `MIN_IMG_HEIGHT` (100): a candidate whose
rendered image is smaller on either axis is skipped and produces no
record. -/
theorem C2_emitted_record_min_size (render : Rect → RenderOut)
    (stem outDir : String) (pages : List PageData) (r : FigRecord)
    (hr : r ∈ extractImagesAndCaptions render stem outDir pages) :
    MIN_IMG_WIDTH ≤ r.width ∧ MIN_IMG_HEIGHT ≤ r.height := by
  refine extractPagesAux_size render stem outDir pages 1 [] [] ?_ r ?_
  · intro r hr
    cases hr
  · exact hr

/-- C4 — amended.  A candidate whose rendered image is below the minimum
size is filtered before the content classifier and the deduplicator run
(no record is emitted, no hash is stored), but caption extraction has
already run on it: the caption and the caption-derived `origin_id` are
computed before rendering and the size check (lines 353-358 precede
lines 363-366). -/
theorem C4_small_skips_classifier_dedup_after_caption
    (render : Rect → RenderOut) (pd : PageData)
    (gstats : List (Rect × PrimStat)) (stem outDir : String)
    (pageNum idx : Nat) (kept : List Nat) (bbox clipped : Rect)
    (hclip : clipToPage bbox pd.pbox = some clipped)
    (hsmall : (render clipped).width < MIN_IMG_WIDTH ∨
      (render clipped).height < MIN_IMG_HEIGHT) :
    processCandidate render pd gstats stem outDir pageNum idx kept bbox =
      ⟨none, kept, true, false, false⟩ := by
  unfold processCandidate
  rw [hclip]
  dsimp only
  rw [if_pos hsmall]

/-! ### Concrete fixtures for the pipeline witnesses -/

/-- A renderer returning a 300×200 image with perceptual hash 77. -/
def wRender : Rect → RenderOut := fun _ => ⟨300, 200, 77, 0⟩

/-- A renderer returning a 150×90 image (below the 200×100 minimum). -/
def wRenderSmall : Rect → RenderOut := fun _ => ⟨150, 90, 11, 0⟩

/-- A 200×300 page with one raster box, no words, no vector primitives. -/
def wPage : PageData :=
  ⟨200, 300, ⟨0, 0, 200, 300⟩, [], [⟨0, 0, 100, 100⟩], []⟩

/-- C4 — counterexample.  On a candidate rendered at 150×90 (below the
200×100 minimum), the pipeline emits no record, stores no hash, and never
reaches the classifier or the dedup check — but caption extraction has
already run (`captionRan = true`), contradicting the claim that the size
filter precedes caption extraction: the source computes the caption (line
354) before rendering and the size check (lines 361-366), and its skip log
even prints the caption-derived `origin_id`. -/
theorem C4_counterexample :
    (processCandidate wRenderSmall wPage [] "doc" "out" 1 1 []
      ⟨0, 0, 100, 100⟩).record = none ∧
    (processCandidate wRenderSmall wPage [] "doc" "out" 1 1 []
      ⟨0, 0, 100, 100⟩).kept = [] ∧
    (processCandidate wRenderSmall wPage [] "doc" "out" 1 1 []
      ⟨0, 0, 100, 100⟩).classifierRan = false ∧
    (processCandidate wRenderSmall wPage [] "doc" "out" 1 1 []
      ⟨0, 0, 100, 100⟩).dedupRan = false ∧
    (processCandidate wRenderSmall wPage [] "doc" "out" 1 1 []
      ⟨0, 0, 100, 100⟩).captionRan = true := by
  have hclip : clipToPage ⟨0, 0, 100, 100⟩ wPage.pbox = some ⟨0, 0, 100, 100⟩ := by
    norm_num [clipToPage, wPage, max_def, min_def]
  unfold processCandidate
  rw [hclip]
  dsimp only
  rw [if_pos (show (wRenderSmall ⟨0, 0, 100, 100⟩).width < MIN_IMG_WIDTH ∨
    (wRenderSmall ⟨0, 0, 100, 100⟩).height < MIN_IMG_HEIGHT from by decide)]
  exact ⟨rfl, rfl, rfl, rfl, rfl⟩

/-- C4 — witness for the amended theorem at the 150×90 fixture. -/
theorem C4_small_skips_witness :
    processCandidate wRenderSmall wPage [] "doc" "out" 1 1 [] ⟨0, 0, 100, 100⟩ =
      ⟨none, [], true, false, false⟩ :=
  C4_small_skips_classifier_dedup_after_caption wRenderSmall wPage [] "doc"
    "out" 1 1 [] ⟨0, 0, 100, 100⟩ ⟨0, 0, 100, 100⟩
    (by norm_num [clipToPage, wPage, max_def, min_def]) (by decide)

/-- C1 — witness: with ledger `[70]` and a candidate hashing to 77
(Hamming distance 3 ≤ 5), no record is emitted and the ledger is unchanged;
the pairwise invariant holds for the records of a one-page document. -/
theorem C1_dedup_witness :
    (∃ h ∈ [70], phashDist (wRender ⟨0, 0, 50, 50⟩).phash h ≤ HASH_THRESHOLD) ∧
    (List.Pairwise (fun r1 r2 => HASH_THRESHOLD < phashDist r1.phash r2.phash)
        (extractImagesAndCaptions wRender "doc" "out" [wPage]) ∧
      (processCandidate wRender wPage [] "doc" "out" 1 1 [70]
        ⟨0, 0, 50, 50⟩).record = none ∧
      (processCandidate wRender wPage [] "doc" "out" 1 1 [70]
        ⟨0, 0, 50, 50⟩).kept = [70]) :=
  ⟨by decide,
   C1_dedup_invariant_and_reject wRender "doc" "out" [wPage] wPage [] 1 1 [70]
     ⟨0, 0, 50, 50⟩ ⟨0, 0, 50, 50⟩
     (by norm_num [clipToPage, wPage, max_def, min_def]) (by decide)⟩

/-- The record emitted for `wPage` under `wRender`. -/
def wRec : FigRecord :=
  ⟨"fig_p1_1", "FIG_P1_1", 1, "", "out/doc_p1_FIG_P1_1.png", 300, 200, 77⟩

set_option maxHeartbeats 4000000 in
set_option maxRecDepth 10000 in
/-- The per-candidate outcome on the fixture page: accepted record. -/
theorem wRec_step :
    processCandidate wRender wPage [] "doc" "out" 1 1 [] ⟨0, 0, 100, 100⟩ =
      ⟨some wRec, [77], true, true, true⟩ := by
  have hclip : clipToPage ⟨0, 0, 100, 100⟩ wPage.pbox = some ⟨0, 0, 100, 100⟩ := by
    norm_num [clipToPage, wPage, max_def, min_def]
  unfold processCandidate
  rw [hclip]
  dsimp only
  rw [if_neg (show ¬ ((wRender ⟨0, 0, 100, 100⟩).width < MIN_IMG_WIDTH ∨
    (wRender ⟨0, 0, 100, 100⟩).height < MIN_IMG_HEIGHT) from by decide)]
  rw [if_neg (show ¬ looksLikePlainText
      (textCoverage wPage.words ⟨0, 0, 100, 100⟩)
      (wRender ⟨0, 0, 100, 100⟩).meanEdge
      (Option.map Prod.snd (List.find?
        (fun g => decide (bboxDistSq ⟨0, 0, 100, 100⟩ g.1 < 5 ^ 2)) [])) = true
    from by norm_num [looksLikePlainText, textCoverage, wordsInRect, wPage,
      wRender, max_def, min_def])]
  rw [if_neg (show ¬ (([] : List Nat).any fun h =>
      decide (phashDist (wRender ⟨0, 0, 100, 100⟩).phash h ≤ HASH_THRESHOLD)) = true
    from by decide)]
  have hcap : findCaptionFourDirections wPage.pageWidth wPage.pageHeight
      wPage.words ⟨0, 0, 100, 100⟩ = "" := rfl
  have htos : toString (1 : Nat) = "1" := rfl
  rw [hcap, htos]
  decide

set_option maxHeartbeats 1000000 in
/-- C2 — witness: the record emitted for the one-page fixture meets the
minimum size. -/
theorem C2_emitted_record_min_size_witness :
    MIN_IMG_WIDTH ≤ wRec.width ∧ MIN_IMG_HEIGHT ≤ wRec.height := by
  have heval : extractImagesAndCaptions wRender "doc" "out" [wPage] = [wRec] := by
    have h1 : extractImagesAndCaptions wRender "doc" "out" [wPage] =
        [] ++ (processCandidate wRender wPage [] "doc" "out" 1 1 []
          ⟨0, 0, 100, 100⟩).record.toList := rfl
    rw [h1, wRec_step]
    rfl
  exact C2_emitted_record_min_size wRender "doc" "out" [wPage] wRec
    (by rw [heval]; exact List.mem_singleton.2 rfl)

/-! ### Sentence splitting (`split_sentences`, lines 57-61) and reference
search (`find_contexts`, lines 417-450) -/

/-- The lookbehind class of the sentence-split pattern
`(?<=[.?!])\s+(?=(?:[A-Z]|[^0-9]))`. -/
def isSentBoundary (c : Char) : Bool :=
  c == '.' || c == '?' || c == '!'

/-- One left-to-right pass of `re.split` with the sentence pattern.
The lookahead `[A-Z]|[^0-9]` succeeds exactly when a non-digit character
follows, so a whitespace run after `.?!` splits fully when followed by a
non-digit, splits all but its last whitespace char when followed by a digit
or the end (the regex engine backtracks `\s+` one step so the lookahead
sees the remaining whitespace), and a single whitespace char before a digit
does not split.  `acc` is the current piece reversed; the fuel (instantiated
with the text length + 1, each step consuming at least one character) keeps
the recursion structural. -/
def sentSplitGo : Nat → List Char → List Char → List (List Char) →
    List (List Char)
  | 0, rest, acc, out => out ++ [acc.reverse ++ rest]
  | _ + 1, [], acc, out => out ++ [acc.reverse]
  | fuel + 1, c :: rest, acc, out =>
    if (match acc with | p :: _ => isSentBoundary p | [] => false) && isWsChar c then
      let run := c :: rest.takeWhile isWsChar
      let after := rest.dropWhile isWsChar
      let okFull := match after with | d :: _ => !d.isDigit | [] => false
      if okFull then
        sentSplitGo fuel after [] (out ++ [acc.reverse])
      else if run.length ≥ 2 then
        sentSplitGo fuel (run.getLastD c :: after) [] (out ++ [acc.reverse])
      else
        sentSplitGo fuel rest (c :: acc) out
    else
      sentSplitGo fuel rest (c :: acc) out

/-- Source `split_sentences` (lines 57-61): split, then strip each piece and drop
the empty ones. -/
def splitSentences (text : String) : List String :=
  let pieces := sentSplitGo (text.toList.length + 1) text.toList [] []
  (pieces.map fun p => pyStrip (String.mk p)).filter fun s => !(s == "")

/-- First match of `re.findall(r'\d+(?:\.\d+)*', s)` (line 424): the
leftmost digit run with its dotted tail. -/
def findFirstNum : Nat → List Char → Option String
  | 0, _ => none
  | _ + 1, [] => none
  | fuel + 1, c :: rest =>
    if c.isDigit then
      some (String.mk ((c :: rest.takeWhile (fun d => d.isDigit)) ++
        dotNumberTail (rest.dropWhile (fun d => d.isDigit)).length
          (rest.dropWhile (fun d => d.isDigit))))
    else findFirstNum fuel rest

/-- Prefix alternatives of the pattern `(?:Figure|Fig\.?|图|图表)` of
line 428, in backtracking order. -/
def figRefAlternatives : List (List Char) :=
  ["Figure".toList, "Fig.".toList, "Fig".toList, "图".toList, "图表".toList]

/-- Prefix alternatives of the pattern `(?:Table|Tab\.?|表)` of line 429. -/
def tabRefAlternatives : List (List Char) :=
  ["Table".toList, "Tab.".toList, "Tab".toList, "表".toList]

/-- Does one of the alternatives, followed by `\s*` and the (escaped)
number, match at this exact position (case-insensitively)? -/
def refMatchHere (num : List Char) (alts : List (List Char))
    (cs : List Char) : Bool :=
  alts.any fun p =>
    match ciPrefixRest p cs with
    | none => false
    | some rest => (ciPrefixRest num (rest.dropWhile isWsChar)).isSome

/-- Source `re.search` over all start positions. -/
def refSearchGo (num : List Char) (alts : List (List Char)) :
    List Char → Bool
  | [] => false
  | c :: rest => refMatchHere num alts (c :: rest) || refSearchGo num alts rest

/-- Source `any(re.search(p, s, re.I) for p in patterns)` with the two patterns of
lines 427-430. -/
def sentenceMatches (num : String) (s : String) : Bool :=
  refSearchGo num.toList figRefAlternatives s.toList ||
    refSearchGo num.toList tabRefAlternatives s.toList

/-- The window list of lines 431-437: one window per matching sentence, in
sentence order. -/
def collectRanges (num : String) (sentences : List String) : List (ℤ × ℤ) :=
  sentences.enum.filterMap fun p =>
    if sentenceMatches num p.2 then
      some (windowFor (sentences.length : ℤ) (p.1 : ℤ))
    else none

/-- The per-figure body of `find_contexts` (lines 420-449): extract the
leading number from `origin_id + " " + caption`, collect and merge windows,
and join each merged window's sentences with spaces. -/
def figContexts (sentences : List String) (figId caption : String) :
    List String :=
  let key := (figId ++ " " ++ caption).toList
  let ranges := match findFirstNum key.length key with
    | none => []
    | some num => collectRanges num sentences
  (mergeRanges ranges).map fun r =>
    " ".intercalate ((sentences.drop r.1.toNat).take (r.2 - r.1).toNat)

/-- Source `find_contexts` (lines 417-450): attach the context strings to every
figure record of a document. -/
def findContexts (figures : List FigRecord) (fullText : String) :
    List (FigRecord × List String) :=
  let sentences := splitSentences fullText
  figures.map fun fig => (fig, figContexts sentences fig.origin_id fig.caption)

/-! ### Orchestration (`process_pdf` and `__main__`, lines 453-473) -/

/-- One input document as seen by the orchestrator: its stem (the
`paper_id`), the pages and full text the decoder would produce, and
`openFailure`, which models the exception `PdfReader`/`pdfplumber.open`
raises when the document cannot be opened or decoded. -/
structure DocInput where
  stem : String
  openFailure : Option String
  pages : List PageData
  fullText : String

/-- Source `process_pdf` (lines 453-466).  The function body has no `try/except`,
so a document-open failure propagates to the caller as an `Except.error`;
on success it returns the `paper_id` with the context-annotated records
(the JSON written to disk). -/
def processPdf (render : Rect → RenderOut) (outRoot : String) (d : DocInput) :
    Except String (String × List (FigRecord × List String)) :=
  match d.openFailure with
  | some e => .error e
  | none =>
    let outDir := outRoot ++ "/" ++ d.stem
    let figures := extractImagesAndCaptions render d.stem outDir d.pages
    .ok (d.stem, findContexts figures d.fullText)

/-- The `__main__` loop (lines 470-473), over the already-filtered `.pdf`
entries of the input directory: `process_pdf` is called on each document in
order with no exception handling, so Python aborts the loop at the first
failing document.  The result is the list of documents actually processed
and the uncaught error, if any. -/
def mainLoop (render : Rect → RenderOut) (outRoot : String) :
    List DocInput →
      List (String × List (FigRecord × List String)) × Option String
  | [] => ([], none)
  | d :: ds =>
    match processPdf render outRoot d with
    | .error e => ([], some e)
    | .ok out =>
      let rest := mainLoop render outRoot ds
      (out :: rest.1, rest.2)

/-- A document that opens normally and yields no figures. -/
def okDoc1 : DocInput := ⟨"ok1", none, [], ""⟩

/-- A document whose decoding raises (cannot be opened). -/
def badDoc : DocInput := ⟨"corrupt", some "cannot open PDF", [], ""⟩

/-- A healthy sibling document listed after the failing one. -/
def okDoc2 : DocInput := ⟨"ok2", none, [], ""⟩

/-- C5.  The claim matches the spec's stated intent, but the code has no
per-document exception handling: on the input `[ok1, corrupt, ok2]` the
open failure of `corrupt` propagates out of `process_pdf` and aborts the
`__main__` loop, so the sibling `ok2` is never processed — contradicting
"orchestration continues with the remaining documents". -/
theorem C5_document_failure_aborts_loop :
    mainLoop wRender "raw_img" [okDoc1, badDoc, okDoc2] =
      ([("ok1", [])], some "cannot open PDF") ∧
    ¬ ∃ out ∈ (mainLoop wRender "raw_img" [okDoc1, badDoc, okDoc2]).1,
        out.1 = "ok2" := by
  have h : mainLoop wRender "raw_img" [okDoc1, badDoc, okDoc2] =
      ([("ok1", [])], some "cannot open PDF") := rfl
  refine ⟨h, ?_⟩
  rw [h]
  decide
